import Mathlib

/-!
Shallow embedding of `src/lib.rs` of `codahale/zk-cds`, a private
contact-discovery protocol over the NIST P-256 curve.

The repository's own logic (`Server::new`, `Server::find_bucket`,
`Server::unblind_user_id`, `Client::new`, `Client::request_phone_number`,
`Client::process_bucket`, `encode_to_point`) is translated definition by
definition below.  The external library dependencies (the `p256` curve
arithmetic, `sha2`, and `uuid` crates) are not code of this repository; they
are embedded as an abstract interface `CurveModel` whose fields are the
library operations used by the source, together with their documented
contracts (group laws of scalar multiplication on a prime-order group,
round-tripping of the SEC1 compressed codec, the nonzero guarantee of
`Scalar::reduce_nonzero_bytes`, and so on).  A small executable instance
`Toy` of the interface is provided so that every statement can be exercised
on concrete inputs.

Rust panics (`unwrap` / `expect` on `None`, out-of-range slice indexing)
are modelled by the `Outcome.panicked` constructor, tagged with the site of
the panic; a panic is process termination, not a typed error value.
-/

/-- Little-endian byte list of a natural number, `k` bytes long.  Models
`u128::to_le_bytes` (with `k = 16`). -/
def leBytes : Nat → Nat → List Nat
  | 0, _ => []
  | k + 1, n => n % 256 :: leBytes k (n / 256)

theorem leBytes_length (k n : Nat) : (leBytes k n).length = k := by
  induction k generalizing n with
  | zero => rfl
  | succ k ih => simp [leBytes, ih]

/-- A UUID is an opaque 128-bit value, i.e. 16 bytes (`uuid::Uuid`). -/
abbrev Uuid := {l : List Nat // l.length = 16}

/-- Models `Uuid::from_slice`, which succeeds exactly when the slice is 16
bytes long. -/
def uuidFromSlice (l : List Nat) : Option Uuid :=
  if h : l.length = 16 then some ⟨l, h⟩ else none

/-- The candidate buffer built by `encode_to_point`: one `sec1::Tag::Compact`
byte (value 5), the 16 identifier bytes, then the 16 little-endian counter
bytes. -/
def compactBuf (u : Uuid) (i : Nat) : List Nat := 5 :: (u.val ++ leBytes 16 i)

/-- Abstract interface to the external `p256` / `sha2` crates as used by the
source.  `Point` is the prime-order group of P-256, `Scalar` its scalar
field; `toBytes` is `to_encoded_point(true).as_bytes()` (SEC1 compressed:
one tag byte then the 32 x-coordinate bytes, or the single byte 0 for the
identity); `fromBytes` is `EncodedPoint::from_bytes` followed by
`AffinePoint::from_encoded_point`.  The propositional fields are the
documented contracts of those library operations. -/
structure CurveModel : Type 1 where
  Scalar : Type
  Point : Type
  zeroS : Scalar
  oneS : Scalar
  mulS : Scalar → Scalar → Scalar
  invS : Scalar → Option Scalar
  identity : Point
  smul : Scalar → Point → Point
  toBytes : Point → List Nat
  fromBytes : List Nat → Option Point
  sha256 : List Nat → List Nat
  hashToCurve : List Nat → Point
  reduceNonZero : List Nat → Scalar
  mulS_comm : ∀ a b, mulS a b = mulS b a
  mulS_assoc : ∀ a b c, mulS a (mulS b c) = mulS (mulS a b) c
  one_mulS : ∀ a, mulS oneS a = a
  zero_mulS : ∀ a, mulS zeroS a = zeroS
  zeroS_ne_oneS : zeroS ≠ oneS
  invS_mul : ∀ a b, invS a = some b → mulS b a = oneS
  invS_none_iff : ∀ a, invS a = none ↔ a = zeroS
  one_smul : ∀ P, smul oneS P = P
  smul_smul : ∀ a b P, smul a (smul b P) = smul (mulS a b) P
  smul_identity : ∀ a, smul a identity = identity
  toBytes_from : ∀ P, fromBytes (toBytes P) = some P
  toBytes_len : ∀ P, P ≠ identity → (toBytes P).length = 33
  toBytes_identity : toBytes identity = [0]
  sha_len : ∀ m, (sha256 m).length = 32
  reduceNonZero_ne : ∀ m, reduceNonZero m ≠ zeroS
  compact_decode : ∀ x P, fromBytes (5 :: x) = some P → x.length = 32 →
    P ≠ identity ∧ ∃ t, (t = 2 ∨ t = 3) ∧ toBytes P = t :: x
  encode_exists : ∀ u : Uuid, ∃ i, (fromBytes (compactBuf u i)).isSome = true

/-- Where a Rust panic occurred: an `unwrap` of a failed point decode, an
`unwrap` of a failed secret-scalar inversion, an `unwrap` of a failed
hash-derived-scalar inversion, or an out-of-range slice index. -/
inductive PanicSite : Type where
  | pointDecode
  | scalarInvert
  | hashScalarInvert
  | sliceRange
  deriving DecidableEq

/-- Result of running a Rust function that may panic: `panicked s` models
process termination by panic at site `s`, `ok v` a normal return of `v`.  A
panic is not a typed error value surfaced to the caller. -/
inductive Outcome (α : Type) : Type where
  | panicked (site : PanicSite)
  | ok (val : α)
  deriving DecidableEq

/-- Association-list lookup; models `HashMap::get` (key equality is exact
byte equality of the encoded keys). -/
def lookupA {α β : Type} [DecidableEq α] : List (α × β) → α → Option β
  | [], _ => none
  | (a, b) :: rest, k => if k = a then some b else lookupA rest k

/-- Association-list insert; models `HashMap::insert` (replaces the value
when the key is already present). -/
def insertA {α β : Type} [DecidableEq α] : List (α × β) → α → β → List (α × β)
  | [], k, v => [(k, v)]
  | (a, b) :: rest, k, v => if k = a then (k, v) :: rest else (a, b) :: insertA rest k v

/-- One bucket: the blinded-phone-number point bytes mapped to the blinded
user-id point bytes (`HashMap<EncodedPoint, EncodedPoint>`). -/
abbrev Bucket := List (List Nat × List Nat)

/-- The server's bucket table: 8-byte hash prefixes mapped to buckets
(`HashMap<[u8; 8], HashMap<EncodedPoint, EncodedPoint>>`). -/
abbrev Table := List (List Nat × Bucket)

/-- Models `blinded.entry(p).or_insert(HashMap::new()).insert(k, v)`. -/
def insertTable (t : Table) (p k v : List Nat) : Table :=
  insertA t p (insertA ((lookupA t p).getD []) k v)

/-- Lookup of a row through both levels of the table: the bucket for a
prefix (empty when absent), then the entry for a point key in that bucket. -/
def lookupRow (t : Table) (p k : List Nat) : Option (List Nat) :=
  lookupA ((lookupA t p).getD []) k

/-- Models `encode_to_point` (src/lib.rs lines 159-174): try-and-increment,
starting the counter at 0 and returning the first candidate buffer that
decodes to a curve point.  `Nat.find` returns exactly the first counter for
which decoding succeeds, which is the counter the Rust loop stops at. -/
def encodeToPoint (M : CurveModel) (u : Uuid) : M.Point :=
  Option.get (M.fromBytes (compactBuf u (Nat.find (M.encode_exists u))))
    (Nat.find_spec (M.encode_exists u))

/-- The pure prefix-derivation function: the first 8 bytes of the SHA-256
hash of the input. -/
def prefixOf (M : CurveModel) (m : List Nat) : List Nat := (M.sha256 m).take 8

/-- A server in a hypothetical CDS: the secret scalar and the blinded
bucket table (src/lib.rs lines 13-17). -/
structure Server (M : CurveModel) : Type where
  secret : M.Scalar
  users : Table

/-- A client in a hypothetical CDS: its secret scalar (src/lib.rs lines
89-92). -/
structure Client (M : CurveModel) : Type where
  secret : M.Scalar

/-- The row computed for one enrollment entry in the loop body of
`Server::new` (src/lib.rs lines 28-53): the 8-byte hash prefix of the phone
number, the bucket key `hash_to_curve(pn) * secret` and the bucket value
`encode_to_point(u) * secret * reduce_nonzero(sha256(pn))`, both in
compressed encoding. -/
def serverRow (M : CurveModel) (secret : M.Scalar) (pn : List Nat) (u : Uuid) :
    List Nat × List Nat × List Nat :=
  ((M.sha256 pn).take 8,
    M.toBytes (M.smul secret (M.hashToCurve pn)),
    M.toBytes (M.smul (M.reduceNonZero (M.sha256 pn)) (M.smul secret (encodeToPoint M u))))

/-- One iteration of the enrollment loop of `Server::new`: insert the row of
one `(phone_number, user_id)` entry into the table. -/
def tableStep (M : CurveModel) (secret : M.Scalar) (t : Table) (e : List Nat × Uuid) : Table :=
  insertTable t (serverRow M secret e.1 e.2).1 (serverRow M secret e.1 e.2).2.1
    (serverRow M secret e.1 e.2).2.2

/-- Models `Server::new` (src/lib.rs lines 22-60).  The RNG is modelled as
the stream of scalars that successive calls of `Scalar::random` would
return; the constructor calls `Scalar::random` exactly once and stores its
result unconditionally, then blinds the address book entry by entry. -/
def serverNew (M : CurveModel) (rng : Nat → M.Scalar) (users : List (List Nat × Uuid)) :
    Server M :=
  ⟨rng 0, users.foldl (tableStep M (rng 0)) []⟩

/-- Models `Client::new` (src/lib.rs lines 95-99): store the first sampled
scalar. -/
def clientNew (M : CurveModel) (rng : Nat → M.Scalar) : Client M := ⟨rng 0⟩

/-- Models `Client::request_phone_number` (src/lib.rs lines 102-119): the
8-byte hash prefix and the compressed bytes of `hash_to_curve(pn) *
client_secret`. -/
def requestPhoneNumber (M : CurveModel) (C : Client M) (pn : List Nat) :
    List Nat × List Nat :=
  ((M.sha256 pn).take 8, M.toBytes (M.smul C.secret (M.hashToCurve pn)))

/-- Models `Server::find_bucket` (src/lib.rs lines 64-76).  The method takes
`&self`; the first component of the result is the server state after the
call, which is the unchanged receiver.  The supplied point bytes are decoded
with `.unwrap()`: malformed bytes panic.  On success the double-blinded
point and the bucket for the prefix (empty when absent) are returned. -/
def findBucket (M : CurveModel) (S : Server M) (req : List Nat × List Nat) :
    Server M × Outcome (List Nat × Bucket) :=
  match M.fromBytes req.2 with
  | none => (S, Outcome.panicked PanicSite.pointDecode)
  | some P =>
    (S, Outcome.ok (M.toBytes (M.smul S.secret P), (lookupA S.users req.1).getD []))

/-- Models `Server::unblind_user_id` (src/lib.rs lines 79-85): decode the
supplied bytes (`unwrap`), invert the secret (`unwrap`), multiply, re-encode
compressed, slice bytes 1..17 (panics when the encoding is shorter than 17
bytes) and run `Uuid::from_slice(..).ok()`. -/
def unblindUserId (M : CurveModel) (S : Server M) (b : List Nat) : Outcome (Option Uuid) :=
  match M.fromBytes b with
  | none => Outcome.panicked PanicSite.pointDecode
  | some P =>
    match M.invS S.secret with
    | none => Outcome.panicked PanicSite.scalarInvert
    | some sInv =>
      if 17 ≤ (M.toBytes (M.smul sInv P)).length then
        Outcome.ok (uuidFromSlice (((M.toBytes (M.smul sInv P)).drop 1).take 16))
      else Outcome.panicked PanicSite.sliceRange

/-- Models `Client::process_bucket` (src/lib.rs lines 124-153): decode the
double-blinded point (`unwrap`), invert the client secret (`unwrap`) to
recover the server-blinded point, look it up in the bucket; on a hit, decode
the stored user-id point (`unwrap`), invert the hash-derived scalar
(`unwrap`) and return the re-encoded point; on a miss return `None`. -/
def processBucket (M : CurveModel) (C : Client M) (resp : List Nat × Bucket) (pn : List Nat) :
    Outcome (Option (List Nat)) :=
  match M.fromBytes resp.1 with
  | none => Outcome.panicked PanicSite.pointDecode
  | some dbl =>
    match M.invS C.secret with
    | none => Outcome.panicked PanicSite.scalarInvert
    | some cInv =>
      match lookupA resp.2 (M.toBytes (M.smul cInv dbl)) with
      | some uidBytes =>
        match M.fromBytes uidBytes with
        | none => Outcome.panicked PanicSite.pointDecode
        | some uidPoint =>
          match M.invS (M.reduceNonZero (M.sha256 pn)) with
          | none => Outcome.panicked PanicSite.hashScalarInvert
          | some hInv => Outcome.ok (some (M.toBytes (M.smul hInv uidPoint)))
      | none => Outcome.ok none

/-! Helper lemmas about the association lists and the table. -/

theorem lookupA_insertA {α β : Type} [DecidableEq α] (l : List (α × β)) (k' : α) (v' : β)
    (k : α) : lookupA (insertA l k' v') k = if k = k' then some v' else lookupA l k := by
  induction l with
  | nil => simp [insertA, lookupA]
  | cons e rest ih =>
    obtain ⟨a, b⟩ := e
    by_cases h1 : k' = a
    · subst h1
      by_cases h2 : k = k' <;> simp [insertA, lookupA, h2]
    · by_cases h2 : k = a
      · subst h2
        have hkk : ¬(k = k') := fun hh => h1 hh.symm
        simp [insertA, lookupA, h1, hkk]
      · simp [insertA, lookupA, h1, h2, ih]

theorem lookupRow_insertTable (t : Table) (p' k' v' p k : List Nat) :
    lookupRow (insertTable t p' k' v') p k =
      if p = p' then (if k = k' then some v' else lookupRow t p k) else lookupRow t p k := by
  unfold lookupRow insertTable
  rw [lookupA_insertA]
  by_cases hp : p = p'
  · subst hp; simp [lookupA_insertA]
  · simp [hp]

theorem lookupRow_foldl_preserve (M : CurveModel) (secret : M.Scalar)
    (l : List (List Nat × Uuid)) :
    ∀ (t : Table) (p k v : List Nat), lookupRow t p k = some v →
    (∀ e ∈ l, (serverRow M secret e.1 e.2).2.1 = k →
      serverRow M secret e.1 e.2 = (p, k, v)) →
    lookupRow (List.foldl (tableStep M secret) t l) p k = some v := by
  induction l with
  | nil => intro t p k v ht _; simpa using ht
  | cons e rest ih =>
    intro t p k v ht hcomp
    rw [List.foldl_cons]
    refine ih (tableStep M secret t e) p k v ?_ ?_
    · rw [tableStep, lookupRow_insertTable]
      by_cases hk : (serverRow M secret e.1 e.2).2.1 = k
      · have he := hcomp e (List.mem_cons_self e rest) hk
        rw [he]
        simp
      · by_cases hp : p = (serverRow M secret e.1 e.2).1
        · rw [if_pos hp, if_neg (fun h => hk (h.symm)), ht]
        · rw [if_neg hp, ht]
    · intro e' he' hk'
      exact hcomp e' (List.mem_cons_of_mem e he') hk'

theorem lookupRow_foldl_store (M : CurveModel) (secret : M.Scalar)
    (l : List (List Nat × Uuid)) (pn : List Nat) (u : Uuid) :
    ∀ t : Table, (pn, u) ∈ l →
    (∀ e ∈ l, (serverRow M secret e.1 e.2).2.1 = (serverRow M secret pn u).2.1 →
      serverRow M secret e.1 e.2 = serverRow M secret pn u) →
    lookupRow (List.foldl (tableStep M secret) t l) (serverRow M secret pn u).1
      (serverRow M secret pn u).2.1 = some (serverRow M secret pn u).2.2 := by
  induction l with
  | nil => intro t h; cases h
  | cons e rest ih =>
    intro t hmem hcomp
    rcases List.mem_cons.mp hmem with he | hrest
    · rw [List.foldl_cons]
      refine lookupRow_foldl_preserve M secret rest (tableStep M secret t e) _ _ _ ?_ ?_
      · rw [tableStep, lookupRow_insertTable]
        rw [← he]
        simp
      · intro e' he' hk'
        have := hcomp e' (List.mem_cons_of_mem e he') hk'
        rw [this]
    · rw [List.foldl_cons]
      exact ih (tableStep M secret t e) hrest
        (fun e' he' hk' => hcomp e' (List.mem_cons_of_mem e he') hk')

theorem lookupRow_foldl_sources (M : CurveModel) (secret : M.Scalar)
    (l : List (List Nat × Uuid)) :
    ∀ (t : Table) (p k : List Nat),
    (lookupRow (List.foldl (tableStep M secret) t l) p k).isSome = true →
    (lookupRow t p k).isSome = true ∨
      ∃ pn u, (pn, u) ∈ l ∧ (serverRow M secret pn u).2.1 = k := by
  induction l with
  | nil => intro t p k h; exact Or.inl (by simpa using h)
  | cons e rest ih =>
    intro t p k h
    rw [List.foldl_cons] at h
    rcases ih (tableStep M secret t e) p k h with h1 | h2
    · rw [tableStep, lookupRow_insertTable] at h1
      by_cases hp : p = (serverRow M secret e.1 e.2).1
      · rw [if_pos hp] at h1
        by_cases hk : k = (serverRow M secret e.1 e.2).2.1
        · exact Or.inr ⟨e.1, e.2, List.mem_cons_self e rest, hk.symm⟩
        · rw [if_neg hk] at h1
          exact Or.inl h1
      · rw [if_neg hp] at h1
        exact Or.inl h1
    · obtain ⟨pn, u, hm, hk⟩ := h2
      exact Or.inr ⟨pn, u, List.mem_cons_of_mem e hm, hk⟩

theorem lookupA_foldl_mono (M : CurveModel) (secret : M.Scalar)
    (l : List (List Nat × Uuid)) :
    ∀ (t : Table) (p : List Nat), (lookupA t p).isSome = true →
    (lookupA (List.foldl (tableStep M secret) t l) p).isSome = true := by
  induction l with
  | nil => intro t p h; simpa using h
  | cons e rest ih =>
    intro t p h
    rw [List.foldl_cons]
    refine ih (tableStep M secret t e) p ?_
    rw [tableStep, insertTable, lookupA_insertA]
    by_cases hp : p = (serverRow M secret e.1 e.2).1 <;> simp [hp, h]

theorem lookupA_foldl_present (M : CurveModel) (secret : M.Scalar)
    (l : List (List Nat × Uuid)) (pn : List Nat) (u : Uuid) :
    ∀ t : Table, (pn, u) ∈ l →
    (lookupA (List.foldl (tableStep M secret) t l) (serverRow M secret pn u).1).isSome
      = true := by
  induction l with
  | nil => intro t h; cases h
  | cons e rest ih =>
    intro t hmem
    rcases List.mem_cons.mp hmem with he | hrest
    · rw [List.foldl_cons]
      refine lookupA_foldl_mono M secret rest (tableStep M secret t e) _ ?_
      rw [tableStep, insertTable, lookupA_insertA, ← he]
      simp
    · rw [List.foldl_cons]
      exact ih (tableStep M secret t e) hrest

theorem nodup_fst_eq {α β : Type} {l : List (α × β)} (h : (l.map Prod.fst).Nodup)
    {a : α} {b1 b2 : β} (h1 : (a, b1) ∈ l) (h2 : (a, b2) ∈ l) : b1 = b2 := by
  induction l with
  | nil => cases h1
  | cons e rest ih =>
    rw [List.map_cons, List.nodup_cons] at h
    rcases List.mem_cons.mp h1 with he1 | hr1
    · rcases List.mem_cons.mp h2 with he2 | hr2
      · rw [← he1] at he2
        exact ((Prod.mk.injEq a b2 a b1).mp he2).2.symm
      · exfalso
        apply h.1
        rw [← he1]
        exact List.mem_map.mpr ⟨(a, b2), hr2, rfl⟩
    · rcases List.mem_cons.mp h2 with he2 | hr2
      · exfalso
        apply h.1
        rw [← he2]
        exact List.mem_map.mpr ⟨(a, b1), hr1, rfl⟩
      · exact ih h.2 hr1 hr2

/-! Derived algebraic facts about a `CurveModel`. -/

theorem toBytes_inj (M : CurveModel) {X Y : M.Point} (h : M.toBytes X = M.toBytes Y) :
    X = Y := by
  have hx := M.toBytes_from X
  rw [h, M.toBytes_from Y] at hx
  exact (Option.some.inj hx).symm

theorem inv_cancel (M : CurveModel) {a b : M.Scalar} (h : M.invS a = some b) (X : M.Point) :
    M.smul b (M.smul a X) = X := by
  rw [M.smul_smul, M.invS_mul a b h, M.one_smul]

theorem inv_cancel' (M : CurveModel) {a b : M.Scalar} (h : M.invS a = some b) (X : M.Point) :
    M.smul a (M.smul b X) = X := by
  rw [M.smul_smul, M.mulS_comm, M.invS_mul a b h, M.one_smul]

theorem smul_injOn (M : CurveModel) {a b : M.Scalar} (h : M.invS a = some b)
    {X Y : M.Point} (he : M.smul a X = M.smul a Y) : X = Y := by
  have h1 : X = M.smul b (M.smul a X) := (inv_cancel M h X).symm
  rw [h1, he, inv_cancel M h Y]

theorem unblind_key (M : CurveModel) {c cInv : M.Scalar} (s : M.Scalar)
    (h : M.invS c = some cInv) (X : M.Point) :
    M.smul cInv (M.smul s (M.smul c X)) = M.smul s X := by
  rw [M.smul_smul, M.smul_smul]
  have hsc : M.mulS (M.mulS cInv s) c = s := by
    rw [← M.mulS_assoc, M.mulS_comm s c, M.mulS_assoc, M.invS_mul c cInv h, M.one_mulS]
  rw [hsc]

theorem invS_ne_zeroS (M : CurveModel) {a b : M.Scalar} (h : M.invS a = some b) :
    b ≠ M.zeroS := by
  intro hb
  apply M.zeroS_ne_oneS
  rw [← M.invS_mul a b h, hb, M.zero_mulS]

theorem invS_isSome_of_ne (M : CurveModel) {a : M.Scalar} (h : a ≠ M.zeroS) :
    ∃ b, M.invS a = some b := by
  cases hi : M.invS a with
  | none => exact absurd ((M.invS_none_iff a).mp hi) h
  | some b => exact ⟨b, rfl⟩

theorem smul_ne_identity (M : CurveModel) {a : M.Scalar} {P : M.Point}
    (ha : a ≠ M.zeroS) (hP : P ≠ M.identity) : M.smul a P ≠ M.identity := by
  intro hc
  obtain ⟨b, hb⟩ := invS_isSome_of_ne M ha
  apply hP
  have h1 : M.smul b (M.smul a P) = P := inv_cancel M hb P
  rw [hc, M.smul_identity] at h1
  exact h1.symm

theorem take_length_append {α : Type} (l1 l2 : List α) :
    (l1 ++ l2).take l1.length = l1 := by
  induction l1 with
  | nil => rfl
  | cons a l ih => simp [ih]

/-- Specification of the try-and-increment encoding: whatever counter the
loop stops at, the returned point is not the identity and its compressed
encoding is a compressed tag byte followed by the 16 identifier bytes and
the 16 counter bytes. -/
theorem encodeToPoint_spec (M : CurveModel) (u : Uuid) :
    encodeToPoint M u ≠ M.identity ∧
    ∃ t rest, (t = 2 ∨ t = 3) ∧ rest.length = 16 ∧
      M.toBytes (encodeToPoint M u) = t :: (u.val ++ rest) := by
  have hs := Nat.find_spec (M.encode_exists u)
  have heq : M.fromBytes (compactBuf u (Nat.find (M.encode_exists u)))
      = some (encodeToPoint M u) := (Option.some_get hs).symm
  have hlen : (u.val ++ leBytes 16 (Nat.find (M.encode_exists u))).length = 32 := by
    simp [u.prop, leBytes_length]
  obtain ⟨hne, t, ht, htb⟩ := M.compact_decode _ _ heq hlen
  exact ⟨hne, t, leBytes 16 (Nat.find (M.encode_exists u)), ht,
    leBytes_length 16 _, htb⟩

/-! A small executable instance of the curve interface.  Its group is the
two-element action (the zero scalar sends every point to the identity, the
one scalar is neutral), its points are an optional 32-byte x-coordinate
(`none` is the identity), and its codec follows the SEC1 tag layout used by
the source: tag byte 0 for the identity, tags 2, 3 and 5 followed by 32
body bytes otherwise.  It satisfies every contract of `CurveModel` and lets
each statement be evaluated on concrete inputs. -/

abbrev ToyBase := {l : List Nat // l.length = 32}

abbrev ToyPoint := Option ToyBase

def toySmul (s : Bool) (P : ToyPoint) : ToyPoint := if s then P else none

def toyToBytes : ToyPoint → List Nat
  | none => [0]
  | some x => 2 :: x.val

def toyFromBytes (b : List Nat) : Option ToyPoint :=
  if b = [0] then some none
  else if h : (b.head? = some 2 ∨ b.head? = some 3 ∨ b.head? = some 5) ∧
      b.tail.length = 32 then
    some (some ⟨b.tail, h.2⟩)
  else none

def pad32 (m : List Nat) : List Nat := (m ++ List.replicate 32 0).take 32

theorem pad32_length (m : List Nat) : (pad32 m).length = 32 := by
  rw [pad32, List.length_take, List.length_append, List.length_replicate]
  omega

def toySha (m : List Nat) : List Nat := pad32 m

def toyHashToCurve (m : List Nat) : ToyPoint := some ⟨pad32 m, pad32_length m⟩

def Toy : CurveModel where
  Scalar := Bool
  Point := ToyPoint
  zeroS := false
  oneS := true
  mulS := and
  invS := fun s => if s then some true else none
  identity := none
  smul := toySmul
  toBytes := toyToBytes
  fromBytes := toyFromBytes
  sha256 := toySha
  hashToCurve := toyHashToCurve
  reduceNonZero := fun _ => true
  mulS_comm := by decide
  mulS_assoc := by decide
  one_mulS := by decide
  zero_mulS := by decide
  zeroS_ne_oneS := by decide
  invS_mul := by decide
  invS_none_iff := by decide
  one_smul := fun P => by simp [toySmul]
  smul_smul := fun a b P => by cases a <;> cases b <;> simp [toySmul]
  smul_identity := fun a => by cases a <;> simp [toySmul]
  toBytes_from := by
    intro P
    cases P with
    | none => rfl
    | some x => simp [toyToBytes, toyFromBytes, x.prop]
  toBytes_len := by
    intro P h
    cases P with
    | none => exact absurd rfl h
    | some x => simp [toyToBytes, x.prop]
  toBytes_identity := rfl
  sha_len := fun m => pad32_length m
  reduceNonZero_ne := fun _ h => nomatch h
  compact_decode := by
    intro x P h hlen
    rw [toyFromBytes, if_neg (by simp), dif_pos ⟨Or.inr (Or.inr rfl), hlen⟩] at h
    have hP : P = some ⟨x, hlen⟩ := (Option.some.inj h).symm
    subst hP
    exact ⟨by simp, 2, Or.inl rfl, rfl⟩
  encode_exists := by
    intro u
    refine ⟨0, ?_⟩
    have hlen : (u.val ++ leBytes 16 0).length = 32 := by
      simp [u.prop, leBytes_length]
    rw [compactBuf, toyFromBytes, if_neg (by simp),
      dif_pos ⟨Or.inr (Or.inr rfl), hlen⟩]
    rfl

/-! Evaluation lemmas for the protocol operations. -/

theorem findBucket_ok (M : CurveModel) (S : Server M) (pfx b : List Nat)
    (P : M.Point) (h : M.fromBytes b = some P) :
    (findBucket M S (pfx, b)).2 =
      Outcome.ok (M.toBytes (M.smul S.secret P), (lookupA S.users pfx).getD []) := by
  simp [findBucket, h]

theorem processBucket_hit (M : CurveModel) (C : Client M) (resp : List Nat × Bucket)
    (pn : List Nat) (dbl uidPoint : M.Point) (cInv hInv : M.Scalar) (uidBytes : List Nat)
    (h1 : M.fromBytes resp.1 = some dbl)
    (h2 : M.invS C.secret = some cInv)
    (h3 : lookupA resp.2 (M.toBytes (M.smul cInv dbl)) = some uidBytes)
    (h4 : M.fromBytes uidBytes = some uidPoint)
    (h5 : M.invS (M.reduceNonZero (M.sha256 pn)) = some hInv) :
    processBucket M C resp pn = Outcome.ok (some (M.toBytes (M.smul hInv uidPoint))) := by
  simp [processBucket, h1, h2, h3, h4, h5]

theorem processBucket_miss (M : CurveModel) (C : Client M) (resp : List Nat × Bucket)
    (pn : List Nat) (dbl : M.Point) (cInv : M.Scalar)
    (h1 : M.fromBytes resp.1 = some dbl)
    (h2 : M.invS C.secret = some cInv)
    (h3 : lookupA resp.2 (M.toBytes (M.smul cInv dbl)) = none) :
    processBucket M C resp pn = Outcome.ok none := by
  simp [processBucket, h1, h2, h3]

theorem unblindUserId_eval (M : CurveModel) (S : Server M) (b : List Nat) (P : M.Point)
    (sInv : M.Scalar) (hb : M.fromBytes b = some P) (hs : M.invS S.secret = some sInv)
    (h17 : 17 ≤ (M.toBytes (M.smul sInv P)).length) :
    unblindUserId M S b =
      Outcome.ok (uuidFromSlice (((M.toBytes (M.smul sInv P)).drop 1).take 16)) := by
  simp [unblindUserId, hb, hs, h17]

/-- Reading bytes 1..17 of the compressed encoding of an encoded identifier
point recovers the identifier. -/
theorem decode_encodeToPoint (M : CurveModel) (u : Uuid) :
    uuidFromSlice (((M.toBytes (encodeToPoint M u)).drop 1).take 16) = some u := by
  obtain ⟨-, t, rest, -, hrest, htb⟩ := encodeToPoint_spec M u
  rw [htb]
  show uuidFromSlice ((u.val ++ rest).take 16) = some u
  have h1 : ∀ (l1 l2 : List Nat), l1.length = 16 → (l1 ++ l2).take 16 = l1 := by
    intro l1 l2 hl
    rw [← hl]
    exact take_length_append l1 l2
  rw [h1 u.val rest u.prop]
  simp [uuidFromSlice, u.prop]

/-! Claim theorems. -/

/-- C3: for every valid curve point P and every nonzero scalar d, blinding P
with d and then unblinding the result with the inverse of d yields P
exactly, with a bit-identical compressed encoding. -/
theorem c3_blind_unblind (M : CurveModel) (P : M.Point) (d : M.Scalar)
    (hd : d ≠ M.zeroS) :
    ∃ dInv, M.invS d = some dInv ∧
      M.toBytes (M.smul dInv (M.smul d P)) = M.toBytes P := by
  obtain ⟨dInv, hi⟩ := invS_isSome_of_ne M hd
  exact ⟨dInv, hi, by rw [inv_cancel M hi P]⟩

theorem c3_witness :
    Toy.zeroS = false ∧
    ∃ dInv, Toy.invS true = some dInv ∧
      Toy.toBytes (Toy.smul dInv (Toy.smul true (toyHashToCurve [1]))) =
        Toy.toBytes (toyHashToCurve [1]) :=
  ⟨rfl, c3_blind_unblind Toy (toyHashToCurve [1]) true (fun h => nomatch h)⟩

/-- C4: for every 128-bit identifier u, whatever counter the
try-and-increment loop of encode_to_point stops at, reading bytes 1..17 of
the compressed encoding of the produced point yields exactly u, and the
same identifier always encodes to the same point. -/
theorem c4_encode_decode (M : CurveModel) (u : Uuid) :
    uuidFromSlice (((M.toBytes (encodeToPoint M u)).drop 1).take 16) = some u ∧
    ∀ v : Uuid, v = u → encodeToPoint M v = encodeToPoint M u := by
  exact ⟨decode_encodeToPoint M u, fun v hv => by rw [hv]⟩

theorem c4_witness :
    uuidFromSlice
        (((Toy.toBytes (encodeToPoint Toy ⟨List.replicate 16 7, by simp⟩)).drop 1).take 16)
      = some ⟨List.replicate 16 7, by simp⟩ ∧
    encodeToPoint Toy ⟨List.replicate 16 7, by simp⟩ =
      encodeToPoint Toy ⟨List.replicate 16 7, by simp⟩ :=
  ⟨(c4_encode_decode Toy ⟨List.replicate 16 7, by simp⟩).1,
   (c4_encode_decode Toy ⟨List.replicate 16 7, by simp⟩).2 _ rfl⟩

/-- C5 (counterexample): the byte string [9] does not decode to a curve
point, and on it `find_bucket`, `unblind_user_id` and `process_bucket` all
panic at the point-decode `unwrap` instead of surfacing a typed error for
the query. -/
theorem c5_counterexample :
    Toy.fromBytes [9] = none ∧
    (findBucket Toy (serverNew Toy (fun _ => true) []) (List.replicate 8 0, [9])).2 =
      Outcome.panicked PanicSite.pointDecode ∧
    unblindUserId Toy (serverNew Toy (fun _ => true) []) [9] =
      Outcome.panicked PanicSite.pointDecode ∧
    processBucket Toy (clientNew Toy (fun _ => true)) ([9], []) [1] =
      Outcome.panicked PanicSite.pointDecode :=
  ⟨rfl, rfl, rfl, rfl⟩

/-- C5 (amended): for every input byte string that does not decode to a
valid curve point, the operations consuming transport-supplied points
(`find_bucket`, `unblind_user_id`, `process_bucket`) panic on the failed
point-decode `unwrap`; no typed error value is returned for the query. -/
theorem c5_panics_on_malformed (M : CurveModel) (S : Server M) (C : Client M)
    (pfx b pn : List Nat) (bucket : Bucket) (h : M.fromBytes b = none) :
    (findBucket M S (pfx, b)).2 = Outcome.panicked PanicSite.pointDecode ∧
    unblindUserId M S b = Outcome.panicked PanicSite.pointDecode ∧
    processBucket M C (b, bucket) pn = Outcome.panicked PanicSite.pointDecode := by
  refine ⟨?_, ?_, ?_⟩ <;> simp [findBucket, unblindUserId, processBucket, h]

theorem c5_witness :
    Toy.fromBytes [9] = none ∧
    ((findBucket Toy (serverNew Toy (fun _ => true) []) (List.replicate 8 0, [9])).2 =
        Outcome.panicked PanicSite.pointDecode ∧
      unblindUserId Toy (serverNew Toy (fun _ => true) []) [9] =
        Outcome.panicked PanicSite.pointDecode ∧
      processBucket Toy (clientNew Toy (fun _ => true)) ([9], []) [1] =
        Outcome.panicked PanicSite.pointDecode) :=
  ⟨rfl, c5_panics_on_malformed Toy (serverNew Toy (fun _ => true) [])
    (clientNew Toy (fun _ => true)) (List.replicate 8 0) [9] [1] [] rfl⟩

/-- C6 (counterexample): with an RNG whose first sample is the zero scalar
and whose later samples are nonzero, both constructors store the zero
sample unchanged — no resampling happens — and the stored secret is not
invertible. -/
theorem c6_counterexample :
    ((fun n => decide (n ≠ 0)) : Nat → Bool) 0 = Toy.zeroS ∧
    ((fun n => decide (n ≠ 0)) : Nat → Bool) 1 ≠ Toy.zeroS ∧
    (serverNew Toy (fun n => decide (n ≠ 0)) []).secret = Toy.zeroS ∧
    (clientNew Toy (fun n => decide (n ≠ 0))).secret = Toy.zeroS ∧
    Toy.invS (serverNew Toy (fun n => decide (n ≠ 0)) []).secret = none :=
  by
  refine ⟨rfl, ?_, rfl, rfl, rfl⟩
  intro h
  exact nomatch h

/-- C6 (amended): `Server::new` and `Client::new` store the first scalar
sampled from the RNG with no resampling; when that sample is the zero
scalar, the zero secret is kept and is not invertible. -/
theorem c6_stores_first_sample (M : CurveModel) (rng : Nat → M.Scalar)
    (users : List (List Nat × Uuid)) (hz : rng 0 = M.zeroS) :
    (serverNew M rng users).secret = rng 0 ∧
    (clientNew M rng).secret = rng 0 ∧
    M.invS (serverNew M rng users).secret = none := by
  refine ⟨rfl, rfl, ?_⟩
  show M.invS (rng 0) = none
  rw [hz]
  exact (M.invS_none_iff M.zeroS).mpr rfl

theorem c6_witness :
    ((fun _ => false) : Nat → Bool) 0 = Toy.zeroS ∧
    ((serverNew Toy (fun _ => false) []).secret = ((fun _ => false) : Nat → Bool) 0 ∧
      (clientNew Toy (fun _ => false)).secret = ((fun _ => false) : Nat → Bool) 0 ∧
      Toy.invS (serverNew Toy (fun _ => false) []).secret = none) :=
  ⟨rfl, c6_stores_first_sample Toy (fun _ => false) [] rfl⟩

/-- C7: `find_bucket` leaves the server's state (secret and bucket table)
unchanged for every input, and for every prefix with no entry in the table
(with a well-formed point) it returns the empty bucket as a normal result,
not an error. -/
theorem c7_find_bucket (M : CurveModel) (S : Server M) (pfx b : List Nat) :
    (findBucket M S (pfx, b)).1 = S ∧
    ∀ P, M.fromBytes b = some P → lookupA S.users pfx = none →
      (findBucket M S (pfx, b)).2 = Outcome.ok (M.toBytes (M.smul S.secret P), []) := by
  constructor
  · cases h : M.fromBytes b <;> simp [findBucket, h]
  · intro P hP hN
    simp [findBucket, hP, hN]

theorem c7_witness :
    ((findBucket Toy (⟨true, []⟩ : Server Toy) (List.replicate 8 0, [0])).1 =
      (⟨true, []⟩ : Server Toy)) ∧
    (findBucket Toy (⟨true, []⟩ : Server Toy) (List.replicate 8 0, [0])).2 =
      Outcome.ok (Toy.toBytes (Toy.smul true Toy.identity), []) :=
  ⟨(c7_find_bucket Toy ⟨true, []⟩ (List.replicate 8 0) [0]).1,
   (c7_find_bucket Toy ⟨true, []⟩ (List.replicate 8 0) [0]).2 Toy.identity rfl rfl⟩

/-- C8: prefix derivation is the pure function taking the first 8 bytes of
the SHA-256 hash: the prefix computed by `request_phone_number` and the one
computed for the same phone number in the `Server::new` enrollment loop are
both `prefixOf`, and the server stores each enrolled number's row under
that prefix. -/
theorem c8_prefix_agreement (M : CurveModel) (C : Client M) (secret : M.Scalar)
    (pn : List Nat) (u : Uuid) :
    (requestPhoneNumber M C pn).1 = prefixOf M pn ∧
    (serverRow M secret pn u).1 = prefixOf M pn ∧
    prefixOf M pn = (M.sha256 pn).take 8 ∧
    ∀ (rng : Nat → M.Scalar) (users : List (List Nat × Uuid)), (pn, u) ∈ users →
      (lookupA (serverNew M rng users).users (prefixOf M pn)).isSome = true := by
  refine ⟨rfl, rfl, rfl, ?_⟩
  intro rng users hmem
  exact lookupA_foldl_present M (rng 0) users pn u [] hmem

theorem c8_witness :
    (requestPhoneNumber Toy (⟨true⟩ : Client Toy) [1]).1 = prefixOf Toy [1] ∧
    (serverRow Toy true [1] ⟨List.replicate 16 7, by simp⟩).1 = prefixOf Toy [1] ∧
    prefixOf Toy [1] = (Toy.sha256 [1]).take 8 ∧
    (lookupA (serverNew Toy (fun _ => true) [([1], ⟨List.replicate 16 7, by simp⟩)]).users
      (prefixOf Toy [1])).isSome = true :=
  ⟨(c8_prefix_agreement Toy ⟨true⟩ true [1] ⟨List.replicate 16 7, by simp⟩).1,
   (c8_prefix_agreement Toy ⟨true⟩ true [1] ⟨List.replicate 16 7, by simp⟩).2.1,
   (c8_prefix_agreement Toy ⟨true⟩ true [1] ⟨List.replicate 16 7, by simp⟩).2.2.1,
   (c8_prefix_agreement Toy ⟨true⟩ true [1] ⟨List.replicate 16 7, by simp⟩).2.2.2
     (fun _ => true) [([1], ⟨List.replicate 16 7, by simp⟩)] (by simp)⟩

/-- C9: every input that decodes to a valid non-identity curve point makes
`unblind_user_id` return some identifier (the server's secret being
invertible): the None branch is unreachable, because the extracted slice is
always 16 bytes, so `Uuid::from_slice` always succeeds — even on points
never produced by `encode_to_point`. -/
theorem c9_unblind_total (M : CurveModel) (S : Server M) (b : List Nat)
    (P : M.Point) (sInv : M.Scalar) (hb : M.fromBytes b = some P)
    (hP : P ≠ M.identity) (hs : M.invS S.secret = some sInv) :
    ∃ w : Uuid, unblindUserId M S b = Outcome.ok (some w) := by
  have hsz : sInv ≠ M.zeroS := invS_ne_zeroS M hs
  have hQ : M.smul sInv P ≠ M.identity := smul_ne_identity M hsz hP
  have hlen : (M.toBytes (M.smul sInv P)).length = 33 := M.toBytes_len _ hQ
  have h17 : 17 ≤ (M.toBytes (M.smul sInv P)).length := by rw [hlen]; norm_num
  have hslice : (((M.toBytes (M.smul sInv P)).drop 1).take 16).length = 16 := by
    rw [List.length_take, List.length_drop, hlen]
    decide
  refine ⟨⟨_, hslice⟩, ?_⟩
  rw [unblindUserId_eval M S b P sInv hb hs h17]
  unfold uuidFromSlice
  rw [dif_pos hslice]

theorem c9_witness :
    Toy.fromBytes (2 :: List.replicate 32 4) =
      some (some ⟨List.replicate 32 4, by simp⟩) ∧
    ((some ⟨List.replicate 32 4, by simp⟩ : ToyPoint) ≠ Toy.identity) ∧
    Toy.invS (⟨true, []⟩ : Server Toy).secret = some true ∧
    ∃ w : Uuid, unblindUserId Toy ⟨true, []⟩ (2 :: List.replicate 32 4) =
      Outcome.ok (some w) :=
  ⟨rfl, Option.some_ne_none _, rfl,
   c9_unblind_total Toy ⟨true, []⟩ (2 :: List.replicate 32 4)
     (some ⟨List.replicate 32 4, by simp⟩) true rfl (Option.some_ne_none _) rfl⟩

/-- C10: the scalar `reduce_nonzero_bytes` derives from a phone number's
SHA-256 hash is never zero, so the inversion of that scalar in
`process_bucket` can never be the source of a panic, for any client, any
server response and any phone number. -/
theorem c10_hash_scalar_invertible (M : CurveModel) (C : Client M)
    (resp : List Nat × Bucket) (pn : List Nat) :
    M.reduceNonZero (M.sha256 pn) ≠ M.zeroS ∧
    processBucket M C resp pn ≠ Outcome.panicked PanicSite.hashScalarInvert := by
  refine ⟨M.reduceNonZero_ne _, ?_⟩
  unfold processBucket
  cases h1 : M.fromBytes resp.1 with
  | none => simp
  | some dbl =>
    cases h2 : M.invS C.secret with
    | none => simp
    | some cInv =>
      cases h3 : lookupA resp.2 (M.toBytes (M.smul cInv dbl)) with
      | none => simp [h3]
      | some uidBytes =>
        cases h4 : M.fromBytes uidBytes with
        | none => simp [h3, h4]
        | some uidPoint =>
          cases h5 : M.invS (M.reduceNonZero (M.sha256 pn)) with
          | none => exact absurd ((M.invS_none_iff _).mp h5) (M.reduceNonZero_ne _)
          | some hInv => simp [h3, h4, h5]

theorem c10_witness :
    Toy.reduceNonZero (Toy.sha256 [1]) ≠ Toy.zeroS ∧
    processBucket Toy (clientNew Toy (fun _ => true)) ([0], []) [1] ≠
      Outcome.panicked PanicSite.hashScalarInvert :=
  c10_hash_scalar_invertible Toy (clientNew Toy (fun _ => true)) ([0], []) [1]

/-- C1: for every enrollment map and every phone number pn enrolled with
identifier u (the secrets being invertible and the hash-to-curve map being
collision-free on the enrolled numbers), the full protocol run — request,
bucket lookup with double-blinding, client match and unblinding, server
unblinding — yields exactly the identifier u. -/
theorem c1_round_trip (M : CurveModel) (sRng cRng : Nat → M.Scalar)
    (users : List (List Nat × Uuid)) (pn : List Nat) (u : Uuid)
    (sInv cInv : M.Scalar)
    (hs : M.invS (sRng 0) = some sInv) (hc : M.invS (cRng 0) = some cInv)
    (hmem : (pn, u) ∈ users)
    (hnodup : (users.map Prod.fst).Nodup)
    (hinjH : ∀ p1 p2, p1 ∈ users.map Prod.fst → p2 ∈ users.map Prod.fst →
      M.hashToCurve p1 = M.hashToCurve p2 → p1 = p2) :
    ∃ resp out,
      (findBucket M (serverNew M sRng users)
        (requestPhoneNumber M (clientNew M cRng) pn)).2 = Outcome.ok resp ∧
      processBucket M (clientNew M cRng) resp pn = Outcome.ok (some out) ∧
      unblindUserId M (serverNew M sRng users) out = Outcome.ok (some u) := by
  have hcomp : ∀ e ∈ users,
      (serverRow M (sRng 0) e.1 e.2).2.1 = (serverRow M (sRng 0) pn u).2.1 →
      serverRow M (sRng 0) e.1 e.2 = serverRow M (sRng 0) pn u := by
    intro e he hk
    obtain ⟨e1, e2⟩ := e
    have hH : M.hashToCurve e1 = M.hashToCurve pn :=
      smul_injOn M hs (toBytes_inj M hk)
    have hpn : e1 = pn := hinjH e1 pn (List.mem_map.mpr ⟨(e1, e2), he, rfl⟩)
      (List.mem_map.mpr ⟨(pn, u), hmem, rfl⟩) hH
    subst hpn
    have hu : e2 = u := nodup_fst_eq hnodup he hmem
    subst hu
    rfl
  have hrow := lookupRow_foldl_store M (sRng 0) users pn u [] hmem hcomp
  obtain ⟨hI, hh⟩ := invS_isSome_of_ne M (M.reduceNonZero_ne (M.sha256 pn))
  have h3 : lookupA ((lookupA (List.foldl (tableStep M (sRng 0)) [] users)
      ((M.sha256 pn).take 8)).getD [])
      (M.toBytes (M.smul cInv (M.smul (sRng 0) (M.smul (cRng 0) (M.hashToCurve pn)))))
      = some (serverRow M (sRng 0) pn u).2.2 := by
    rw [unblind_key M (sRng 0) hc]
    exact hrow
  have G1 : (findBucket M (serverNew M sRng users)
      (requestPhoneNumber M (clientNew M cRng) pn)).2
      = Outcome.ok (M.toBytes (M.smul (sRng 0) (M.smul (cRng 0) (M.hashToCurve pn))),
        (lookupA (List.foldl (tableStep M (sRng 0)) [] users)
          ((M.sha256 pn).take 8)).getD []) :=
    findBucket_ok M (serverNew M sRng users) ((M.sha256 pn).take 8)
      (M.toBytes (M.smul (cRng 0) (M.hashToCurve pn)))
      (M.smul (cRng 0) (M.hashToCurve pn)) (M.toBytes_from _)
  have G2 : processBucket M (clientNew M cRng)
      (M.toBytes (M.smul (sRng 0) (M.smul (cRng 0) (M.hashToCurve pn))),
        (lookupA (List.foldl (tableStep M (sRng 0)) [] users)
          ((M.sha256 pn).take 8)).getD [])
      pn = Outcome.ok (some (M.toBytes (M.smul (sRng 0) (encodeToPoint M u)))) := by
    rw [processBucket_hit M (clientNew M cRng)
        (M.toBytes (M.smul (sRng 0) (M.smul (cRng 0) (M.hashToCurve pn))),
          (lookupA (List.foldl (tableStep M (sRng 0)) [] users)
            ((M.sha256 pn).take 8)).getD [])
        pn (M.smul (sRng 0) (M.smul (cRng 0) (M.hashToCurve pn)))
        (M.smul (M.reduceNonZero (M.sha256 pn)) (M.smul (sRng 0) (encodeToPoint M u)))
        cInv hI (serverRow M (sRng 0) pn u).2.2 (M.toBytes_from _) hc h3
        (M.toBytes_from _) hh,
      inv_cancel M hh (M.smul (sRng 0) (encodeToPoint M u))]
  have hE : M.smul sInv (M.smul (sRng 0) (encodeToPoint M u)) = encodeToPoint M u :=
    inv_cancel M hs (encodeToPoint M u)
  have hlenE : (M.toBytes (encodeToPoint M u)).length = 33 :=
    M.toBytes_len _ (encodeToPoint_spec M u).1
  have h17 : 17 ≤ (M.toBytes (M.smul sInv (M.smul (sRng 0) (encodeToPoint M u)))).length := by
    rw [hE, hlenE]
    decide
  have G3 : unblindUserId M (serverNew M sRng users)
      (M.toBytes (M.smul (sRng 0) (encodeToPoint M u))) = Outcome.ok (some u) := by
    rw [unblindUserId_eval M (serverNew M sRng users)
        (M.toBytes (M.smul (sRng 0) (encodeToPoint M u)))
        (M.smul (sRng 0) (encodeToPoint M u)) sInv (M.toBytes_from _) hs h17, hE,
      decode_encodeToPoint M u]
  exact ⟨_, _, G1, G2, G3⟩

theorem c1_witness :
    ∃ resp out,
      (findBucket Toy (serverNew Toy (fun _ => true) [([1], ⟨List.replicate 16 7, by simp⟩)])
        (requestPhoneNumber Toy (clientNew Toy (fun _ => true)) [1])).2 = Outcome.ok resp ∧
      processBucket Toy (clientNew Toy (fun _ => true)) resp [1] = Outcome.ok (some out) ∧
      unblindUserId Toy (serverNew Toy (fun _ => true) [([1], ⟨List.replicate 16 7, by simp⟩)])
        out = Outcome.ok (some ⟨List.replicate 16 7, by simp⟩) :=
  c1_round_trip Toy (fun _ => true) (fun _ => true)
    [([1], ⟨List.replicate 16 7, by simp⟩)] [1] ⟨List.replicate 16 7, by simp⟩
    true true rfl rfl (List.mem_singleton.mpr rfl) (by simp)
    (by intro p1 p2 h1 h2 _; simp at h1 h2; rw [h1, h2])

/-- C2: querying a phone number not present in the enrollment map (the
secrets being invertible and the hash-to-curve map being collision-free on
the queried and enrolled numbers) makes `process_bucket` return None — no
identifier, in particular never another enrolled user's identifier. -/
theorem c2_negative_match (M : CurveModel) (sRng cRng : Nat → M.Scalar)
    (users : List (List Nat × Uuid)) (pn : List Nat)
    (sInv cInv : M.Scalar)
    (hs : M.invS (sRng 0) = some sInv) (hc : M.invS (cRng 0) = some cInv)
    (hno : pn ∉ users.map Prod.fst)
    (hinjH : ∀ p1 p2, p1 ∈ pn :: users.map Prod.fst → p2 ∈ pn :: users.map Prod.fst →
      M.hashToCurve p1 = M.hashToCurve p2 → p1 = p2) :
    ∃ resp,
      (findBucket M (serverNew M sRng users)
        (requestPhoneNumber M (clientNew M cRng) pn)).2 = Outcome.ok resp ∧
      processBucket M (clientNew M cRng) resp pn = Outcome.ok none := by
  have hmiss : lookupA ((lookupA (List.foldl (tableStep M (sRng 0)) [] users)
      ((M.sha256 pn).take 8)).getD [])
      (M.toBytes (M.smul (sRng 0) (M.hashToCurve pn))) = none := by
    cases hlk : lookupA ((lookupA (List.foldl (tableStep M (sRng 0)) [] users)
        ((M.sha256 pn).take 8)).getD [])
        (M.toBytes (M.smul (sRng 0) (M.hashToCurve pn))) with
    | none => rfl
    | some v =>
      exfalso
      have hsome : (lookupA ((lookupA (List.foldl (tableStep M (sRng 0)) [] users)
          ((M.sha256 pn).take 8)).getD [])
          (M.toBytes (M.smul (sRng 0) (M.hashToCurve pn)))).isSome = true := by
        rw [hlk]
        rfl
      rcases lookupRow_foldl_sources M (sRng 0) users []
          ((M.sha256 pn).take 8) (M.toBytes (M.smul (sRng 0) (M.hashToCurve pn)))
          hsome with h0 | ⟨pn', u', hm, hk⟩
      · simp [lookupRow, lookupA] at h0
      · have hH : M.hashToCurve pn' = M.hashToCurve pn :=
          smul_injOn M hs (toBytes_inj M hk)
        have hpn : pn' = pn := hinjH pn' pn
          (List.mem_cons_of_mem pn (List.mem_map.mpr ⟨(pn', u'), hm, rfl⟩))
          (List.mem_cons_self pn (users.map Prod.fst)) hH
        apply hno
        rw [← hpn]
        exact List.mem_map.mpr ⟨(pn', u'), hm, rfl⟩
  have G1 : (findBucket M (serverNew M sRng users)
      (requestPhoneNumber M (clientNew M cRng) pn)).2
      = Outcome.ok (M.toBytes (M.smul (sRng 0) (M.smul (cRng 0) (M.hashToCurve pn))),
        (lookupA (List.foldl (tableStep M (sRng 0)) [] users)
          ((M.sha256 pn).take 8)).getD []) :=
    findBucket_ok M (serverNew M sRng users) ((M.sha256 pn).take 8)
      (M.toBytes (M.smul (cRng 0) (M.hashToCurve pn)))
      (M.smul (cRng 0) (M.hashToCurve pn)) (M.toBytes_from _)
  have G2 : processBucket M (clientNew M cRng)
      (M.toBytes (M.smul (sRng 0) (M.smul (cRng 0) (M.hashToCurve pn))),
        (lookupA (List.foldl (tableStep M (sRng 0)) [] users)
          ((M.sha256 pn).take 8)).getD [])
      pn = Outcome.ok none := by
    apply processBucket_miss M (clientNew M cRng)
      (M.toBytes (M.smul (sRng 0) (M.smul (cRng 0) (M.hashToCurve pn))),
        (lookupA (List.foldl (tableStep M (sRng 0)) [] users)
          ((M.sha256 pn).take 8)).getD [])
      pn (M.smul (sRng 0) (M.smul (cRng 0) (M.hashToCurve pn))) cInv
      (M.toBytes_from _) hc
    rw [unblind_key M (sRng 0) hc]
    exact hmiss
  exact ⟨_, G1, G2⟩

theorem c2_witness :
    ∃ resp,
      (findBucket Toy (serverNew Toy (fun _ => true) [([1], ⟨List.replicate 16 7, by simp⟩)])
        (requestPhoneNumber Toy (clientNew Toy (fun _ => true)) [2])).2 = Outcome.ok resp ∧
      processBucket Toy (clientNew Toy (fun _ => true)) resp [2] = Outcome.ok none :=
  c2_negative_match Toy (fun _ => true) (fun _ => true)
    [([1], ⟨List.replicate 16 7, by simp⟩)] [2] true true rfl rfl (by simp)
    (by
      intro p1 p2 h1 h2 hH
      simp at h1 h2
      rcases h1 with h1 | h1 <;> rcases h2 with h2 | h2 <;> subst h1 <;> subst h2
      · rfl
      · have hH' : toyHashToCurve [2] = toyHashToCurve [1] := hH
        exact absurd hH' (by decide)
      · have hH' : toyHashToCurve [1] = toyHashToCurve [2] := hH
        exact absurd hH' (by decide)
      · rfl)
